import Mathlib

set_option maxHeartbeats 1000000

/-!
Verification development for the firewall rule reconciliation engine of the
latitudesh agent.  The definitions below are a shallow embedding of the Go
collector (`FirewallCollector` and its methods `String`, `parseUFWRules`,
`rulesToStringSet`, `findRulesToAdd`, `findRulesToRemove`, `addUFWRule`,
`removeUFWRule`, `reloadUFW`, `SyncFirewallRules`).  External effects
(executing the packet-filter binary, JSON unmarshalling) are modelled as
explicit inputs: the exit status of each add/remove invocation is an oracle
function, the probe execution and the JSON parse are `Except` inputs, and the
sequence of packet-filter commands a cycle would execute is returned as data.
-/

namespace LatitudeAgent

/-- FirewallRule mirrors the Go struct `FirewallRule`: three string fields
`From`, `Protocol`, `Port` (JSON keys `from`, `protocol`, `port`). -/
structure FirewallRule where
  From : String
  Protocol : String
  Port : String
  deriving DecidableEq, Repr

/-- goToLower models Go `strings.ToLower` on the ASCII range (the only range
the engine's rule strings use). -/
def goToLower (s : String) : String :=
  String.mk (s.toList.map Char.toLower)

/-- ruleString mirrors the Go method `FirewallRule.String`: each empty field is
replaced by the literal `any`, and the fields are rendered in the fixed format
`From: %s, Protocol: %s, Port: %s`.  No case folding happens here. -/
def ruleString (r : FirewallRule) : String :=
  let fromS := if r.From = "" then "any" else r.From
  let protocolS := if r.Protocol = "" then "any" else r.Protocol
  let portS := if r.Port = "" then "any" else r.Port
  "From: " ++ fromS ++ ", Protocol: " ++ protocolS ++ ", Port: " ++ portS

/-- ruleKey is the canonical comparison key built by `rulesToStringSet`,
`findRulesToAdd` and `findRulesToRemove`: the normalized rule string, lowered
as a whole exactly when `caseSensitive` is false. -/
def ruleKey (caseSensitive : Bool) (r : FirewallRule) : String :=
  if caseSensitive then ruleString r else goToLower (ruleString r)

/-- containsKey is the Go map membership test `_, exists := m[key]`, on the
association-list model of the Go `map[string]FirewallRule`. -/
def containsKey (m : List (String × FirewallRule)) (k : String) : Bool :=
  m.any (fun p => p.1 == k)

/-- mapInsert is the Go map write `m[key] = rule`: replace the binding when the
key is present, append it otherwise. -/
def mapInsert (m : List (String × FirewallRule)) (k : String) (r : FirewallRule) :
    List (String × FirewallRule) :=
  if containsKey m k then m.map (fun p => if p.1 == k then (k, r) else p)
  else m ++ [(k, r)]

/-- rulesToStringSet mirrors the Go method `rulesToStringSet`: fold the rule
slice into a map keyed by the (optionally case-folded) normalized string. -/
def rulesToStringSet (caseSensitive : Bool) (rules : List FirewallRule) :
    List (String × FirewallRule) :=
  rules.foldl (fun m r => mapInsert m (ruleKey caseSensitive r) r) []

/-- findRulesToAdd mirrors the Go method of the same name: it walks the raw
`apiRules` slice (not the `apiSet` map) and keeps every rule whose key is
absent from the current-state map, in slice order. -/
def findRulesToAdd (caseSensitive : Bool) (currentSet : List (String × FirewallRule))
    (apiRules : List FirewallRule) : List FirewallRule :=
  apiRules.filter (fun r => !(containsKey currentSet (ruleKey caseSensitive r)))

/-- findRulesToRemove mirrors the Go method of the same name: it walks the raw
`currentRules` slice and keeps every rule whose key is absent from the
API-state map, in slice order. -/
def findRulesToRemove (caseSensitive : Bool) (apiSet : List (String × FirewallRule))
    (currentRules : List FirewallRule) : List FirewallRule :=
  currentRules.filter (fun r => !(containsKey apiSet (ruleKey caseSensitive r)))

/-- UFWCmd is one invocation of the packet-filter binary: the `status` probe,
`allow proto P from F to T port Q`, `delete allow from F to T port Q proto P`,
or `reload`. -/
inductive UFWCmd where
  | status : UFWCmd
  | allow (protoArg fromArg toArg portArg : String) : UFWCmd
  | deleteAllow (fromArg toArg portArg protoArg : String) : UFWCmd
  | reload : UFWCmd
  deriving DecidableEq, Repr

/-- addCmd is the command built by the Go method `addUFWRule`, including its
no-op rewrite of `from` (the code replaces `any` by `any`); the raw field
values are passed through as arguments, with no `any` defaulting. -/
def addCmd (r : FirewallRule) : UFWCmd :=
  let fromA := if r.From = "any" then "any" else r.From
  UFWCmd.allow r.Protocol fromA "any" r.Port

/-- removeCmd is the command built by the Go method `removeUFWRule`, including
its no-op rewrite of `from`; the raw field values are passed through. -/
def removeCmd (r : FirewallRule) : UFWCmd :=
  let fromA := if r.From = "any" then "any" else r.From
  UFWCmd.deleteAllow fromA "any" r.Port r.Protocol

/-- isGoDigit is the regexp character class `[0-9]`. -/
def isGoDigit (c : Char) : Bool := '0' ≤ c && c ≤ '9'

/-- isGoLower is the regexp character class `[a-z]`. -/
def isGoLower (c : Char) : Bool := 'a' ≤ c && c ≤ 'z'

/-- isReSpace is the character class `\s` of Go regexp:
`[\t\n\f\r ]`. -/
def isReSpace (c : Char) : Bool :=
  c = ' ' || c = '\t' || c = '\n' || c = '\x0c' || c = '\r'

/-- isGoSpace models `unicode.IsSpace` (used by `strings.TrimSpace`) on the
ASCII range the probe output uses. -/
def isGoSpace (c : Char) : Bool :=
  c = ' ' || c = '\t' || c = '\n' || c = '\x0b' || c = '\x0c' || c = '\r'

/-- goTrimSpace models Go `strings.TrimSpace` on a character list. -/
def goTrimSpace (l : List Char) : List Char :=
  ((l.dropWhile isGoSpace).reverse.dropWhile isGoSpace).reverse

/-- splitOnChar models Go `strings.Split` with a one-character separator. -/
def splitOnChar (sep : Char) : List Char → List (List Char)
  | [] => [[]]
  | c :: cs =>
    let r := splitOnChar sep cs
    if c = sep then [] :: r
    else
      match r with
      | [] => [[c]]
      | h :: t => (c :: h) :: t

/-- containsSub models Go `strings.Contains`. -/
def containsSub (l : List Char) (sub : List Char) : Bool :=
  l.tails.any (fun t => sub.isPrefixOf t)

/-- matchRuleLine models `ruleRegex.FindStringSubmatch` for the anchored
pattern `([0-9]+/[a-z]+)\s+ALLOW\s+(.+)` with `^`/`$` anchors, applied to a
line already trimmed of surrounding whitespace; on such lines every quantifier
takes its maximal match, which agrees with the regexp engine.  Returns the two
capture groups, or `none` when the line does not match the grammar. -/
def matchRuleLine (l : List Char) : Option (List Char × List Char) :=
  let ds := l.takeWhile isGoDigit
  let r1 := l.dropWhile isGoDigit
  if ds.isEmpty then none
  else
    match r1 with
    | '/' :: r2 =>
      let ls := r2.takeWhile isGoLower
      let r3 := r2.dropWhile isGoLower
      if ls.isEmpty then none
      else
        let w1 := r3.takeWhile isReSpace
        let r4 := r3.dropWhile isReSpace
        if w1.isEmpty then none
        else if (['A', 'L', 'L', 'O', 'W']).isPrefixOf r4 then
          let r5 := r4.drop 5
          let w2 := r5.takeWhile isReSpace
          let r6 := r5.dropWhile isReSpace
          if w2.isEmpty then none
          else if r6.isEmpty then none
          else some (ds ++ '/' :: ls, r6)
        else none
    | _ => none

/-- parseUFWRules mirrors the Go method `parseUFWRules`: split the probe output
on newlines, trim each line, keep lines containing `ALLOW` but not `(v6)`,
regex-match them, split the port/protocol group on `/`, map the source token
`Anywhere` to `any`, and collect the rules in order.  Lines that do not match
are skipped; the Go function always returns a nil error, and the `Except`
mirrors its `([]FirewallRule, error)` signature. -/
def parseUFWRules (output : String) : Except String (List FirewallRule) :=
  Except.ok <|
    (splitOnChar '\n' output.toList).foldl
      (fun rules line =>
        let l := goTrimSpace line
        if containsSub l "ALLOW".toList && !(containsSub l "(v6)".toList) then
          match matchRuleLine l with
          | some (portProto, fromGroup) =>
            match splitOnChar '/' portProto with
            | [portCs, protoCs] =>
              let fromS := String.mk (goTrimSpace fromGroup)
              let fromN := if fromS = "Anywhere" then "any" else fromS
              rules ++ [{ From := fromN, Protocol := String.mk protoCs, Port := String.mk portCs }]
            | _ => rules
          | none => rules
        else rules)
      []

/-- getCurrentUFWRules mirrors the Go method `GetCurrentUFWRules`: run the
status probe (modelled as an `Except` input for the executed command's output)
and parse its output. -/
def getCurrentUFWRules (statusExec : Except String String) :
    Except String (List FirewallRule) :=
  match statusExec with
  | Except.error e => Except.error ("failed to get UFW status: " ++ e)
  | Except.ok out => parseUFWRules out

deriving instance DecidableEq for Except

/-- SyncResult is the observable outcome of one reconciliation cycle: the
sequence of packet-filter commands executed, the final `changesMade` flag, and
the returned error, mirroring `SyncFirewallRules`. -/
structure SyncResult where
  cmds : List UFWCmd
  changesMade : Bool
  result : Except String Unit
  deriving DecidableEq, Repr

/-- syncCore is the body of `SyncFirewallRules` after both parses succeeded:
build the two key maps, compute the plan, attempt every add (in order), then
every remove, raise `changesMade` on any individual success (the per-rule exit
statuses are the oracles `addOk`/`removeOk`), and reload exactly when
`changesMade` is set; a failed reload is the only error.  The leading `status`
command is the probe that produced `currentRules`. -/
def syncCore (caseSensitive : Bool) (apiRules currentRules : List FirewallRule)
    (addOk removeOk : FirewallRule → Bool) (reloadOk : Bool) : SyncResult :=
  let currentSet := rulesToStringSet caseSensitive currentRules
  let apiSet := rulesToStringSet caseSensitive apiRules
  let rulesToAdd := findRulesToAdd caseSensitive currentSet apiRules
  let rulesToRemove := findRulesToRemove caseSensitive apiSet currentRules
  let afterAdds := rulesToAdd.foldl (fun b r => b || addOk r) false
  let changesMade := rulesToRemove.foldl (fun b r => b || removeOk r) afterAdds
  let cmds := UFWCmd.status :: (rulesToAdd.map addCmd ++ rulesToRemove.map removeCmd
    ++ (if changesMade then [UFWCmd.reload] else []))
  { cmds := cmds
    changesMade := changesMade
    result :=
      if changesMade && !reloadOk then Except.error "failed to reload UFW"
      else Except.ok () }

/-- syncFirewallRules mirrors `SyncFirewallRules`: a failed JSON unmarshal of
the API payload (modelled as an `Except` input, Go `json.Unmarshal`) aborts
before anything runs; a failed probe aborts after the status command; otherwise
the cycle body `syncCore` runs. -/
def syncFirewallRules (caseSensitive : Bool)
    (apiParse : Except String (List FirewallRule)) (statusExec : Except String String)
    (addOk removeOk : FirewallRule → Bool) (reloadOk : Bool) : SyncResult :=
  match apiParse with
  | Except.error e =>
    { cmds := [], changesMade := false
      result := Except.error ("failed to parse API rules JSON: " ++ e) }
  | Except.ok apiRules =>
    match getCurrentUFWRules statusExec with
    | Except.error e =>
      { cmds := [UFWCmd.status], changesMade := false
        result := Except.error ("failed to get current UFW rules: " ++ e) }
    | Except.ok currentRules =>
      syncCore caseSensitive apiRules currentRules addOk removeOk reloadOk

/-- applyPlan models the effect on the packet-filter state of an apply phase in
which every add and every remove takes effect: rules whose canonical key occurs
in `toRemove` disappear, and the rules of `toAdd` are inserted. -/
def applyPlan (caseSensitive : Bool) (current toAdd toRemove : List FirewallRule) :
    List FirewallRule :=
  current.filter
    (fun c =>
      !((toRemove.map (ruleKey caseSensitive)).any (fun k => k == ruleKey caseSensitive c)))
    ++ toAdd

/-- isAllowCmd recognizes an `allow` invocation. -/
def isAllowCmd : UFWCmd → Bool
  | UFWCmd.allow _ _ _ _ => true
  | _ => false

/-- isDeleteCmd recognizes a `delete allow` invocation. -/
def isDeleteCmd : UFWCmd → Bool
  | UFWCmd.deleteAllow _ _ _ _ => true
  | _ => false

/-- postCycleState is the packet-filter state after one fully successful cycle
against current state `C` and desired state `D`. -/
def postCycleState (caseSensitive : Bool) (C D : List FirewallRule) : List FirewallRule :=
  applyPlan caseSensitive C
    (findRulesToAdd caseSensitive (rulesToStringSet caseSensitive C) D)
    (findRulesToRemove caseSensitive (rulesToStringSet caseSensitive D) C)

lemma containsKey_iff (m : List (String × FirewallRule)) (k : String) :
    containsKey m k = true ↔ ∃ p ∈ m, p.1 = k := by
  simp [containsKey, List.any_eq_true, beq_iff_eq]

lemma containsKey_mapInsert (m : List (String × FirewallRule)) (k0 : String)
    (r : FirewallRule) (k : String) :
    containsKey (mapInsert m k0 r) k = true ↔ containsKey m k = true ∨ k = k0 := by
  unfold mapInsert
  by_cases h : containsKey m k0
  · simp only [h, if_true, containsKey_iff]
    by_cases hk : k = k0
    · subst hk
      obtain ⟨p0, hp0, hp0k⟩ := (containsKey_iff m k).mp h
      constructor
      · intro _; exact Or.inr rfl
      · intro _
        refine ⟨(k, r), List.mem_map.mpr ⟨p0, hp0, ?_⟩, rfl⟩
        simp [hp0k]
    · constructor
      · rintro ⟨q, hq, hqk⟩
        obtain ⟨p, hp, rfl⟩ := List.mem_map.mp hq
        by_cases hpk : p.1 == k0
        · simp only [hpk, if_true] at hqk
          exact absurd hqk.symm hk
        · simp only [hpk, if_neg, Bool.false_eq_true, if_false] at hqk
          exact Or.inl ⟨p, hp, hqk⟩
      · rintro (⟨p, hp, hpk⟩ | hkk)
        · refine ⟨p, List.mem_map.mpr ⟨p, hp, ?_⟩, hpk⟩
          have : ¬ (p.1 == k0) = true := by
            simp only [beq_iff_eq, hpk]
            exact hk
          simp [this]
        · exact absurd hkk hk
  · simp only [h, Bool.false_eq_true, if_false, containsKey_iff]
    constructor
    · rintro ⟨p, hp, hpk⟩
      rcases List.mem_append.mp hp with hp1 | hp2
      · exact Or.inl ⟨p, hp1, hpk⟩
      · simp only [List.mem_singleton] at hp2
        subst hp2
        exact Or.inr hpk.symm
    · rintro (⟨p, hp, hpk⟩ | hkk)
      · exact ⟨p, List.mem_append.mpr (Or.inl hp), hpk⟩
      · exact ⟨(k0, r), List.mem_append.mpr (Or.inr (List.mem_singleton.mpr rfl)), hkk.symm⟩

lemma containsKey_foldl (cs : Bool) (rs : List FirewallRule)
    (m : List (String × FirewallRule)) (k : String) :
    containsKey (rs.foldl (fun m r => mapInsert m (ruleKey cs r) r) m) k = true ↔
      containsKey m k = true ∨ k ∈ rs.map (ruleKey cs) := by
  induction rs generalizing m with
  | nil => simp
  | cons r rs ih =>
    simp only [List.foldl_cons, ih, containsKey_mapInsert, List.map_cons, List.mem_cons]
    tauto

lemma mem_keys_rulesToStringSet (cs : Bool) (rs : List FirewallRule) (k : String) :
    containsKey (rulesToStringSet cs rs) k = true ↔ k ∈ rs.map (ruleKey cs) := by
  have h := containsKey_foldl cs rs [] k
  simpa [containsKey] using h

lemma not_mem_keys_rulesToStringSet (cs : Bool) (rs : List FirewallRule) (k : String) :
    containsKey (rulesToStringSet cs rs) k = false ↔ k ∉ rs.map (ruleKey cs) := by
  rw [← mem_keys_rulesToStringSet cs rs k]
  simp

lemma mem_map_key_filter (cs : Bool) (S : List (String × FirewallRule))
    (L : List FirewallRule) (k : String) :
    k ∈ (L.filter (fun r => !(containsKey S (ruleKey cs r)))).map (ruleKey cs) ↔
      k ∈ L.map (ruleKey cs) ∧ containsKey S k = false := by
  simp only [List.mem_map, List.mem_filter, Bool.not_eq_true']
  constructor
  · rintro ⟨r, ⟨hrL, hS⟩, rfl⟩
    exact ⟨⟨r, hrL, rfl⟩, hS⟩
  · rintro ⟨⟨r, hrL, rfl⟩, hS⟩
    exact ⟨r, ⟨hrL, hS⟩, rfl⟩

/-- C1: the diff of one cycle is the symmetric set difference of the canonical
key sets: `toAdd` holds exactly the desired keys absent from current,
`toRemove` exactly the current keys absent from desired, and no key is in
both. -/
theorem diff_computes_symmetric_difference (cs : Bool) (C D : List FirewallRule) (k : String) :
    (k ∈ (findRulesToAdd cs (rulesToStringSet cs C) D).map (ruleKey cs) ↔
      (k ∈ D.map (ruleKey cs) ∧ k ∉ C.map (ruleKey cs)))
    ∧ (k ∈ (findRulesToRemove cs (rulesToStringSet cs D) C).map (ruleKey cs) ↔
      (k ∈ C.map (ruleKey cs) ∧ k ∉ D.map (ruleKey cs)))
    ∧ ¬(k ∈ (findRulesToAdd cs (rulesToStringSet cs C) D).map (ruleKey cs)
        ∧ k ∈ (findRulesToRemove cs (rulesToStringSet cs D) C).map (ruleKey cs)) := by
  have h1 : k ∈ (findRulesToAdd cs (rulesToStringSet cs C) D).map (ruleKey cs) ↔
      (k ∈ D.map (ruleKey cs) ∧ k ∉ C.map (ruleKey cs)) := by
    rw [findRulesToAdd, mem_map_key_filter, not_mem_keys_rulesToStringSet]
  have h2 : k ∈ (findRulesToRemove cs (rulesToStringSet cs D) C).map (ruleKey cs) ↔
      (k ∈ C.map (ruleKey cs) ∧ k ∉ D.map (ruleKey cs)) := by
    rw [findRulesToRemove, mem_map_key_filter, not_mem_keys_rulesToStringSet]
  refine ⟨h1, h2, ?_⟩
  rw [h1, h2]
  tauto

lemma post_state_keys (cs : Bool) (C D : List FirewallRule) :
    (∀ r ∈ D, ruleKey cs r ∈ (postCycleState cs C D).map (ruleKey cs))
    ∧ (∀ c ∈ postCycleState cs C D, ruleKey cs c ∈ D.map (ruleKey cs)) := by
  constructor
  · intro r hr
    rw [postCycleState, applyPlan, List.map_append, List.mem_append]
    by_cases hC : ruleKey cs r ∈ C.map (ruleKey cs)
    · obtain ⟨c, hc, hck⟩ := List.mem_map.mp hC
      left
      refine List.mem_map.mpr ⟨c, List.mem_filter.mpr ⟨hc, ?_⟩, hck⟩
      rw [Bool.not_eq_true']
      rw [List.any_eq_false]
      rintro k hk
      obtain ⟨t, ht, rfl⟩ := List.mem_map.mp hk
      have htD : ruleKey cs t ∉ D.map (ruleKey cs) := by
        have h2 := (List.mem_filter.mp ht).2
        rw [Bool.not_eq_true'] at h2
        exact (not_mem_keys_rulesToStringSet cs D (ruleKey cs t)).mp h2
      simp only [beq_iff_eq]
      intro hEq
      apply htD
      rw [hEq, hck]
      exact List.mem_map.mpr ⟨r, hr, rfl⟩
    · right
      refine List.mem_map.mpr ⟨r, List.mem_filter.mpr ⟨hr, ?_⟩, rfl⟩
      rw [Bool.not_eq_true']
      exact (not_mem_keys_rulesToStringSet cs C (ruleKey cs r)).mpr hC
  · intro c hc
    rw [postCycleState, applyPlan, List.mem_append] at hc
    rcases hc with hcF | hcA
    · have hcC := (List.mem_filter.mp hcF).1
      have hqc := (List.mem_filter.mp hcF).2
      by_contra hD
      have hnot : containsKey (rulesToStringSet cs D) (ruleKey cs c) = false :=
        (not_mem_keys_rulesToStringSet cs D (ruleKey cs c)).mpr hD
      have hcR : c ∈ findRulesToRemove cs (rulesToStringSet cs D) C := by
        refine List.mem_filter.mpr ⟨hcC, ?_⟩
        rw [Bool.not_eq_true']
        exact hnot
      have hkey : ruleKey cs c ∈
          (findRulesToRemove cs (rulesToStringSet cs D) C).map (ruleKey cs) :=
        List.mem_map.mpr ⟨c, hcR, rfl⟩
      have : ((findRulesToRemove cs (rulesToStringSet cs D) C).map (ruleKey cs)).any
          (fun k => k == ruleKey cs c) = true :=
        List.any_eq_true.mpr ⟨ruleKey cs c, hkey, by simp⟩
      rw [this] at hqc
      simp at hqc
    · have hcD := (List.mem_filter.mp hcA).1
      exact List.mem_map.mpr ⟨c, hcD, rfl⟩

/-- C2: one fully applied cycle makes the next cycle with the same desired set
a no-op: both halves of the plan are empty, no add, remove or reload command is
issued (only the status probe runs), and the cycle reports success. -/
theorem second_cycle_empty_plan (cs : Bool) (C D : List FirewallRule) :
    findRulesToAdd cs (rulesToStringSet cs (postCycleState cs C D)) D = []
    ∧ findRulesToRemove cs (rulesToStringSet cs D) (postCycleState cs C D) = []
    ∧ ∀ (addOk removeOk : FirewallRule → Bool) (reloadOk : Bool),
        (syncCore cs D (postCycleState cs C D) addOk removeOk reloadOk).cmds = [UFWCmd.status]
        ∧ (syncCore cs D (postCycleState cs C D) addOk removeOk reloadOk).changesMade = false
        ∧ (syncCore cs D (postCycleState cs C D) addOk removeOk reloadOk).result
            = Except.ok () := by
  have hA := (post_state_keys cs C D).1
  have hB := (post_state_keys cs C D).2
  have h1 : findRulesToAdd cs (rulesToStringSet cs (postCycleState cs C D)) D = [] := by
    rw [findRulesToAdd, List.filter_eq_nil_iff]
    intro r hr
    have hm := (mem_keys_rulesToStringSet cs (postCycleState cs C D) (ruleKey cs r)).mpr (hA r hr)
    simp [hm]
  have h2 : findRulesToRemove cs (rulesToStringSet cs D) (postCycleState cs C D) = [] := by
    rw [findRulesToRemove, List.filter_eq_nil_iff]
    intro c hc
    have hm := (mem_keys_rulesToStringSet cs D (ruleKey cs c)).mpr (hB c hc)
    simp [hm]
  refine ⟨h1, h2, ?_⟩
  intro addOk removeOk reloadOk
  refine ⟨?_, ?_, ?_⟩ <;> simp [syncCore, h1, h2]

lemma isDeleteCmd_addCmd (r : FirewallRule) : isDeleteCmd (addCmd r) = false := rfl

lemma isAllowCmd_removeCmd (r : FirewallRule) : isAllowCmd (removeCmd r) = false := rfl

lemma no_allow_after_delete (l A R : List UFWCmd) (hl : l = A ++ R)
    (hA : ∀ c ∈ A, isDeleteCmd c = false) (hR : ∀ c ∈ R, isAllowCmd c = false)
    (i j : Nat) (hij : i < j) (hj : j < l.length)
    (hdel : isDeleteCmd (l.get ⟨i, lt_trans hij hj⟩) = true) :
    isAllowCmd (l.get ⟨j, hj⟩) = false := by
  subst hl
  simp only [List.get_eq_getElem] at hdel ⊢
  by_cases hi : i < A.length
  · rw [List.getElem_append_left hi] at hdel
    rw [hA _ (List.getElem_mem _)] at hdel
    cases hdel
  · push_neg at hi
    have hjA : A.length ≤ j := le_trans hi (le_of_lt hij)
    rw [List.getElem_append_right hjA]
    exact hR _ (List.getElem_mem _)

/-- C3: in the command sequence of one cycle, no `delete allow` invocation ever
precedes an `allow` invocation: all additions run before any removal. -/
theorem adds_issued_before_removes (cs : Bool)
    (apiParse : Except String (List FirewallRule)) (statusExec : Except String String)
    (addOk removeOk : FirewallRule → Bool) (reloadOk : Bool) (i j : Nat) (hij : i < j)
    (hj : j < (syncFirewallRules cs apiParse statusExec addOk removeOk reloadOk).cmds.length)
    (hdel : isDeleteCmd
      ((syncFirewallRules cs apiParse statusExec addOk removeOk reloadOk).cmds.get
        ⟨i, lt_trans hij hj⟩) = true) :
    isAllowCmd
      ((syncFirewallRules cs apiParse statusExec addOk removeOk reloadOk).cmds.get ⟨j, hj⟩)
      = false := by
  have hsplit : ∃ A R,
      (syncFirewallRules cs apiParse statusExec addOk removeOk reloadOk).cmds = A ++ R
      ∧ (∀ c ∈ A, isDeleteCmd c = false) ∧ (∀ c ∈ R, isAllowCmd c = false) := by
    cases hp : apiParse with
    | error e =>
      exact ⟨[], [], by simp [syncFirewallRules], by simp, by simp⟩
    | ok apiRules =>
      cases hs : getCurrentUFWRules statusExec with
      | error e =>
        refine ⟨[UFWCmd.status], [], by simp [syncFirewallRules, hs], ?_, by simp⟩
        intro c hc
        rcases List.mem_singleton.mp hc with rfl
        rfl
      | ok currentRules =>
        refine ⟨UFWCmd.status ::
            (findRulesToAdd cs (rulesToStringSet cs currentRules) apiRules).map addCmd,
          (findRulesToRemove cs (rulesToStringSet cs apiRules) currentRules).map removeCmd
            ++ (if ((findRulesToRemove cs (rulesToStringSet cs apiRules) currentRules).foldl
                  (fun b r => b || removeOk r)
                  ((findRulesToAdd cs (rulesToStringSet cs currentRules) apiRules).foldl
                    (fun b r => b || addOk r) false))
                then [UFWCmd.reload] else []), ?_, ?_, ?_⟩
        · simp [syncFirewallRules, hs, syncCore]
        · intro c hc
          rcases List.mem_cons.mp hc with rfl | hc2
          · rfl
          · obtain ⟨r, _, rfl⟩ := List.mem_map.mp hc2
            exact isDeleteCmd_addCmd r
        · intro c hc
          rcases List.mem_append.mp hc with hc1 | hc2
          · obtain ⟨r, _, rfl⟩ := List.mem_map.mp hc1
            exact isAllowCmd_removeCmd r
          · by_cases hb : ((findRulesToRemove cs (rulesToStringSet cs apiRules)
                currentRules).foldl (fun b r => b || removeOk r)
                ((findRulesToAdd cs (rulesToStringSet cs currentRules) apiRules).foldl
                  (fun b r => b || addOk r) false)) = true
            · rw [if_pos hb] at hc2
              rcases List.mem_singleton.mp hc2 with rfl
              rfl
            · rw [if_neg hb] at hc2
              cases hc2
  obtain ⟨A, R, hl, hA, hR⟩ := hsplit
  exact no_allow_after_delete _ A R hl hA hR i j hij hj hdel

/-- C3 witness: a concrete cycle whose trace is
`[status, deleteAllow, reload]`. -/
theorem adds_issued_before_removes_witness :
    isAllowCmd
      ((syncFirewallRules false (Except.ok []) (Except.ok "22/tcp ALLOW Anywhere")
        (fun _ => true) (fun _ => true) true).cmds.get ⟨2, by decide⟩) = false :=
  adds_issued_before_removes false (Except.ok []) (Except.ok "22/tcp ALLOW Anywhere")
    (fun _ => true) (fun _ => true) true 1 2 (by decide) (by decide) (by decide)

lemma foldl_or_eq_any (p : FirewallRule → Bool) (l : List FirewallRule) (b : Bool) :
    l.foldl (fun acc r => acc || p r) b = (b || l.any p) := by
  induction l generalizing b with
  | nil => simp
  | cons x xs ih => simp [List.foldl_cons, ih, Bool.or_assoc]

lemma filter_map_addCmd (L : List FirewallRule) :
    (L.map addCmd).filter (fun c => isAllowCmd c || isDeleteCmd c) = L.map addCmd := by
  apply List.filter_eq_self.mpr
  intro c hc
  obtain ⟨r, _, rfl⟩ := List.mem_map.mp hc
  rfl

lemma filter_map_removeCmd (L : List FirewallRule) :
    (L.map removeCmd).filter (fun c => isAllowCmd c || isDeleteCmd c) = L.map removeCmd := by
  apply List.filter_eq_self.mpr
  intro c hc
  obtain ⟨r, _, rfl⟩ := List.mem_map.mp hc
  rfl

lemma cmds_filter_shape (A R : List FirewallRule) (b : Bool) :
    (UFWCmd.status :: (A.map addCmd ++ R.map removeCmd
        ++ (if b then [UFWCmd.reload] else []))).filter
      (fun c => isAllowCmd c || isDeleteCmd c)
      = A.map addCmd ++ R.map removeCmd := by
  cases b <;>
    simp only [List.filter_cons, List.filter_append, filter_map_addCmd, filter_map_removeCmd,
      List.filter_nil, List.append_nil] <;>
    simp [isAllowCmd, isDeleteCmd]

lemma syncCore_eq (cs : Bool) (apiRules currentRules : List FirewallRule)
    (addOk removeOk : FirewallRule → Bool) (reloadOk : Bool) :
    syncCore cs apiRules currentRules addOk removeOk reloadOk =
      { cmds := UFWCmd.status ::
          ((findRulesToAdd cs (rulesToStringSet cs currentRules) apiRules).map addCmd
            ++ (findRulesToRemove cs (rulesToStringSet cs apiRules) currentRules).map removeCmd
            ++ (if ((findRulesToAdd cs (rulesToStringSet cs currentRules) apiRules).any addOk
                  || (findRulesToRemove cs (rulesToStringSet cs apiRules) currentRules).any
                      removeOk)
                then [UFWCmd.reload] else []))
        changesMade := ((findRulesToAdd cs (rulesToStringSet cs currentRules) apiRules).any addOk
          || (findRulesToRemove cs (rulesToStringSet cs apiRules) currentRules).any removeOk)
        result := if ((findRulesToAdd cs (rulesToStringSet cs currentRules) apiRules).any addOk
              || (findRulesToRemove cs (rulesToStringSet cs apiRules) currentRules).any removeOk)
            && !reloadOk
          then Except.error "failed to reload UFW" else Except.ok () } := by
  simp only [syncCore, foldl_or_eq_any]
  simp [Bool.or_assoc]

lemma reload_mem_shape (A R : List FirewallRule) (b : Bool) :
    UFWCmd.reload ∈ (UFWCmd.status :: (A.map addCmd ++ R.map removeCmd
      ++ (if b then [UFWCmd.reload] else []))) ↔ b = true := by
  cases b <;> simp [List.mem_append, List.mem_map, addCmd, removeCmd]

/-- C4: per-rule failures never abort the cycle: every planned add and remove
command is issued whatever the per-rule exit statuses are; `changesMade` is
raised iff at least one individual add or remove succeeded; the reload runs iff
`changesMade`; and a failed reload yields a cycle-level error while the full
add/remove trace stays applied, with nothing issued after the reload. -/
theorem per_rule_failure_isolation (cs : Bool) (apiRules currentRules : List FirewallRule)
    (addOk removeOk : FirewallRule → Bool) (reloadOk : Bool) :
    (syncCore cs apiRules currentRules addOk removeOk reloadOk).cmds.filter
        (fun c => isAllowCmd c || isDeleteCmd c)
      = (findRulesToAdd cs (rulesToStringSet cs currentRules) apiRules).map addCmd
        ++ (findRulesToRemove cs (rulesToStringSet cs apiRules) currentRules).map removeCmd
    ∧ (syncCore cs apiRules currentRules addOk removeOk reloadOk).changesMade
      = ((findRulesToAdd cs (rulesToStringSet cs currentRules) apiRules).any addOk
        || (findRulesToRemove cs (rulesToStringSet cs apiRules) currentRules).any removeOk)
    ∧ (UFWCmd.reload ∈ (syncCore cs apiRules currentRules addOk removeOk reloadOk).cmds ↔
        (syncCore cs apiRules currentRules addOk removeOk reloadOk).changesMade = true)
    ∧ ((syncCore cs apiRules currentRules addOk removeOk reloadOk).changesMade = true →
        reloadOk = false →
        (syncCore cs apiRules currentRules addOk removeOk reloadOk).result
          = Except.error "failed to reload UFW"
        ∧ (syncCore cs apiRules currentRules addOk removeOk reloadOk).cmds
          = UFWCmd.status ::
            ((findRulesToAdd cs (rulesToStringSet cs currentRules) apiRules).map addCmd
              ++ (findRulesToRemove cs (rulesToStringSet cs apiRules) currentRules).map
                  removeCmd
              ++ [UFWCmd.reload])) := by
  simp only [syncCore_eq]
  refine ⟨cmds_filter_shape _ _ _, trivial, reload_mem_shape _ _ _, ?_⟩
  intro hb hrl
  subst hrl
  rw [hb]
  exact ⟨by simp, by simp⟩

/-- C4 witness: a concrete cycle with one successful add and a failing reload
returns the reload error and keeps the full trace. -/
theorem per_rule_failure_isolation_witness :
    (syncCore false [{ From := "any", Protocol := "tcp", Port := "22" }] []
        (fun _ => true) (fun _ => true) false).result = Except.error "failed to reload UFW" :=
  ((per_rule_failure_isolation false [{ From := "any", Protocol := "tcp", Port := "22" }] []
    (fun _ => true) (fun _ => true) false).2.2.2 (by decide) rfl).1

/-- C5: with a non-empty current state and an empty desired rule set, the plan
adds nothing and removes every current rule, and the cycle (with all commands
succeeding) issues exactly one delete per current rule followed by the reload,
reporting success: the empty desired set is a flush, not a no-op. -/
theorem empty_desired_flushes_current (cs : Bool) (C : List FirewallRule) (h : C ≠ []) :
    findRulesToAdd cs (rulesToStringSet cs C) [] = []
    ∧ findRulesToRemove cs (rulesToStringSet cs []) C = C
    ∧ (syncCore cs [] C (fun _ => true) (fun _ => true) true).cmds
        = UFWCmd.status :: (C.map removeCmd ++ [UFWCmd.reload])
    ∧ (syncCore cs [] C (fun _ => true) (fun _ => true) true).result = Except.ok () := by
  have hrem : findRulesToRemove cs (rulesToStringSet cs []) C = C := by
    apply List.filter_eq_self.mpr
    intro r _
    rfl
  have hany : C.any (fun _ => true) = true := by
    cases C with
    | nil => exact absurd rfl h
    | cons c C' => simp
  simp only [syncCore_eq]
  refine ⟨rfl, hrem, ?_, ?_⟩
  · rw [hrem]
    simp [findRulesToAdd, hany]
  · rw [hrem]
    simp [findRulesToAdd, hany]

/-- C5 witness: the concrete flush of a one-rule current state. -/
theorem empty_desired_flushes_current_witness :
    findRulesToAdd false (rulesToStringSet false
        [{ From := "any", Protocol := "tcp", Port := "22" }]) [] = []
    ∧ findRulesToRemove false (rulesToStringSet false [])
        [{ From := "any", Protocol := "tcp", Port := "22" }]
      = [{ From := "any", Protocol := "tcp", Port := "22" }]
    ∧ (syncCore false [] [{ From := "any", Protocol := "tcp", Port := "22" }]
        (fun _ => true) (fun _ => true) true).cmds
      = UFWCmd.status :: ([{ From := "any", Protocol := "tcp", Port := "22" }].map removeCmd
          ++ [UFWCmd.reload])
    ∧ (syncCore false [] [{ From := "any", Protocol := "tcp", Port := "22" }]
        (fun _ => true) (fun _ => true) true).result = Except.ok () :=
  empty_desired_flushes_current false [{ From := "any", Protocol := "tcp", Port := "22" }]
    (by decide)

/-- C6 counterexample: a probe line containing `ALLOW` that does not match the
allow-rule grammar does not abort the cycle: the parser silently skips it and
returns an empty, error-free rule list, and the cycle proceeds to issue its add
command and the reload, finishing with success instead of an error. -/
theorem probe_garbage_no_abort_cex :
    parseUFWRules "garbage ALLOW stuff" = Except.ok []
    ∧ (syncFirewallRules false (Except.ok [{ From := "any", Protocol := "tcp", Port := "22" }])
        (Except.ok "garbage ALLOW stuff") (fun _ => true) (fun _ => true) true).result
      = Except.ok ()
    ∧ (syncFirewallRules false (Except.ok [{ From := "any", Protocol := "tcp", Port := "22" }])
        (Except.ok "garbage ALLOW stuff") (fun _ => true) (fun _ => true) true).cmds
      = [UFWCmd.status, UFWCmd.allow "tcp" "any" "any" "22", UFWCmd.reload] := by
  decide

/-- C6 amended: a malformed desired-state JSON aborts the cycle with an error
before any packet-filter command is attempted, but probe output lines that do
not match the allow-rule grammar are silently skipped: `parseUFWRules` never
returns an error. -/
theorem parse_failure_handling_amended :
    (∀ (cs : Bool) (e : String) (statusExec : Except String String)
        (addOk removeOk : FirewallRule → Bool) (reloadOk : Bool),
      (syncFirewallRules cs (Except.error e) statusExec addOk removeOk reloadOk).cmds = []
      ∧ (syncFirewallRules cs (Except.error e) statusExec addOk removeOk reloadOk).result
        = Except.error ("failed to parse API rules JSON: " ++ e))
    ∧ (∀ output : String, ∃ rules, parseUFWRules output = Except.ok rules) := by
  constructor
  · intro cs e statusExec addOk removeOk reloadOk
    exact ⟨rfl, rfl⟩
  · intro output
    exact ⟨_, rfl⟩

/-- C7 counterexample: two desired entries with the same canonical key both
survive `findRulesToAdd` (it walks the raw desired slice, not the key map), so
the duplicated desired entry produces two identical add commands. -/
theorem duplicate_desired_two_adds_cex :
    findRulesToAdd true (rulesToStringSet true [])
        [{ From := "1.2.3.4", Protocol := "tcp", Port := "22" },
         { From := "1.2.3.4", Protocol := "tcp", Port := "22" }]
      = [{ From := "1.2.3.4", Protocol := "tcp", Port := "22" },
         { From := "1.2.3.4", Protocol := "tcp", Port := "22" }]
    ∧ ((findRulesToAdd true (rulesToStringSet true [])
        [{ From := "1.2.3.4", Protocol := "tcp", Port := "22" },
         { From := "1.2.3.4", Protocol := "tcp", Port := "22" }]).map (ruleKey true)).count
        (ruleKey true { From := "1.2.3.4", Protocol := "tcp", Port := "22" }) = 2
    ∧ (syncCore true
        [{ From := "1.2.3.4", Protocol := "tcp", Port := "22" },
         { From := "1.2.3.4", Protocol := "tcp", Port := "22" }] []
        (fun _ => true) (fun _ => true) true).cmds
      = [UFWCmd.status, UFWCmd.allow "tcp" "1.2.3.4" "any" "22",
         UFWCmd.allow "tcp" "1.2.3.4" "any" "22", UFWCmd.reload] := by
  decide

/-- C7 amended: `toAdd` holds one entry per occurrence in the desired list: a
rule whose key is present in the current state is dropped entirely, and
otherwise every one of its occurrences in the desired list is kept (duplicate
desired entries are not collapsed into one add). -/
theorem toAdd_counts_desired_occurrences (cs : Bool) (C D : List FirewallRule)
    (r : FirewallRule) :
    (findRulesToAdd cs (rulesToStringSet cs C) D).count r
      = if ruleKey cs r ∈ C.map (ruleKey cs) then 0 else D.count r := by
  by_cases h : ruleKey cs r ∈ C.map (ruleKey cs)
  · rw [if_pos h]
    rw [List.count_eq_zero]
    intro hmem
    have h2 := (List.mem_filter.mp hmem).2
    rw [Bool.not_eq_true'] at h2
    exact absurd h ((not_mem_keys_rulesToStringSet cs C (ruleKey cs r)).mp h2)
  · rw [if_neg h]
    apply List.count_filter
    rw [Bool.not_eq_true']
    exact (not_mem_keys_rulesToStringSet cs C (ruleKey cs r)).mpr h

/-- C8 counterexample: the protocol field is not lower-cased unconditionally:
with `caseSensitive = true` the comparison key of a rule with protocol `TCP`
keeps the upper case, so the claimed unconditional fold does not happen. -/
theorem protocol_case_preserved_cex :
    ruleString { From := "", Protocol := "TCP", Port := "" }
      = "From: any, Protocol: TCP, Port: any"
    ∧ ruleKey true { From := "", Protocol := "TCP", Port := "" }
      = "From: any, Protocol: TCP, Port: any"
    ∧ "From: any, Protocol: TCP, Port: any" ≠ "From: any, Protocol: tcp, Port: any" := by
  decide

/-- C8 amended: normalization replaces each empty field by the literal `any`
(`normalize("", "", "")` gives `any/any/any`), the protocol's casing is
preserved verbatim in the normalized string, and lower-casing is applied only
to the comparison key as a whole and only when `caseSensitive` is false. -/
theorem normalization_defaults_amended :
    ruleString { From := "", Protocol := "", Port := "" }
      = "From: any, Protocol: any, Port: any"
    ∧ (∀ r, ruleKey true r = ruleString r)
    ∧ (∀ r, ruleKey false r = goToLower (ruleString r))
    ∧ (∀ p : String, p ≠ "" →
        ruleString { From := "", Protocol := p, Port := "" }
          = "From: any, Protocol: " ++ p ++ ", Port: any") := by
  refine ⟨by decide, fun r => rfl, fun r => rfl, ?_⟩
  intro p hp
  show "From: " ++ (if ("" : String) = "" then "any" else "") ++ ", Protocol: "
      ++ (if p = "" then "any" else p) ++ ", Port: "
      ++ (if ("" : String) = "" then "any" else "")
    = "From: any, Protocol: " ++ p ++ ", Port: any"
  rw [if_pos rfl, if_neg hp]
  rw [show ("From: " ++ "any") ++ ", Protocol: " = "From: any, Protocol: " from rfl]
  rw [String.append_assoc]
  rw [show ", Port: " ++ "any" = ", Port: any" from rfl]

/-- C8 amended witness: the amended statement applied to the protocol `TCP`. -/
theorem normalization_defaults_amended_witness :
    ruleString { From := "", Protocol := "TCP", Port := "" }
      = "From: any, Protocol: " ++ "TCP" ++ ", Port: any" :=
  normalization_defaults_amended.2.2.2 "TCP" (by decide)

/-- C9 counterexample: the Go engine issues the add command with no membership
re-check: the trace of a cycle contains exactly one `status` probe, at the very
start, and the `allow` command follows it unconditionally — no second `status`
query is made between the diff and the add. -/
theorem add_without_recheck_cex :
    (syncFirewallRules false (Except.ok [{ From := "1.2.3.4", Protocol := "tcp", Port := "443" }])
        (Except.ok "") (fun _ => true) (fun _ => true) true).cmds
      = [UFWCmd.status, UFWCmd.allow "tcp" "1.2.3.4" "any" "443", UFWCmd.reload]
    ∧ ((syncFirewallRules false
        (Except.ok [{ From := "1.2.3.4", Protocol := "tcp", Port := "443" }])
        (Except.ok "") (fun _ => true) (fun _ => true) true).cmds.count UFWCmd.status) = 1 := by
  decide

lemma filter_isAllow_map_addCmd (L : List FirewallRule) :
    (L.map addCmd).filter isAllowCmd = L.map addCmd := by
  apply List.filter_eq_self.mpr
  intro c hc
  obtain ⟨r, _, rfl⟩ := List.mem_map.mp hc
  rfl

lemma filter_isAllow_map_removeCmd (L : List FirewallRule) :
    (L.map removeCmd).filter isAllowCmd = [] := by
  rw [List.filter_eq_nil_iff]
  intro c hc
  obtain ⟨r, _, rfl⟩ := List.mem_map.mp hc
  simp [isAllowCmd_removeCmd]

/-- C9 amended: the engine never re-probes the packet filter before an add: a
cycle's trace contains exactly one `status` command (the initial probe), and
the `allow` commands are exactly the planned additions, issued unconditionally
whatever the oracles say. -/
theorem adds_unconditional_no_recheck (cs : Bool) (apiRules currentRules : List FirewallRule)
    (addOk removeOk : FirewallRule → Bool) (reloadOk : Bool) :
    (syncCore cs apiRules currentRules addOk removeOk reloadOk).cmds.count UFWCmd.status = 1
    ∧ (syncCore cs apiRules currentRules addOk removeOk reloadOk).cmds.filter isAllowCmd
      = (findRulesToAdd cs (rulesToStringSet cs currentRules) apiRules).map addCmd := by
  simp only [syncCore_eq]
  constructor
  · rw [List.count_cons_self]
    have : ((findRulesToAdd cs (rulesToStringSet cs currentRules) apiRules).map addCmd
        ++ (findRulesToRemove cs (rulesToStringSet cs apiRules) currentRules).map removeCmd
        ++ (if ((findRulesToAdd cs (rulesToStringSet cs currentRules) apiRules).any addOk
              || (findRulesToRemove cs (rulesToStringSet cs apiRules) currentRules).any removeOk)
            then [UFWCmd.reload] else [])).count UFWCmd.status = 0 := by
      rw [List.count_eq_zero]
      intro hmem
      rcases List.mem_append.mp hmem with hm | hm2
      · rcases List.mem_append.mp hm with hma | hmr
        · obtain ⟨r, _, hr⟩ := List.mem_map.mp hma
          rw [addCmd] at hr
          cases hr
        · obtain ⟨r, _, hr⟩ := List.mem_map.mp hmr
          rw [removeCmd] at hr
          cases hr
      · by_cases hb : ((findRulesToAdd cs (rulesToStringSet cs currentRules) apiRules).any addOk
            || (findRulesToRemove cs (rulesToStringSet cs apiRules) currentRules).any removeOk)
            = true
        · rw [if_pos hb] at hm2
          rcases List.mem_singleton.mp hm2 with h
          cases h
        · rw [if_neg hb] at hm2
          cases hm2
    rw [this]
  · by_cases hb : ((findRulesToAdd cs (rulesToStringSet cs currentRules) apiRules).any addOk
        || (findRulesToRemove cs (rulesToStringSet cs apiRules) currentRules).any removeOk)
        = true
    · rw [if_pos hb]
      simp only [List.filter_cons, List.filter_append, filter_isAllow_map_addCmd,
        filter_isAllow_map_removeCmd, List.filter_nil, List.append_nil]
      simp [isAllowCmd]
    · rw [if_neg hb]
      simp only [List.filter_cons, List.filter_append, filter_isAllow_map_addCmd,
        filter_isAllow_map_removeCmd, List.filter_nil, List.append_nil]
      simp [isAllowCmd]

/-- C10: the `any` defaulting lives only in the comparison key: the issued
commands receive the raw field values, so a rule whose fields are empty strings
is keyed as `any/any/any` yet its add and remove commands carry the empty
strings verbatim. -/
theorem commands_pass_raw_fields (f p q : String) :
    addCmd { From := f, Protocol := p, Port := q } = UFWCmd.allow p f "any" q
    ∧ removeCmd { From := f, Protocol := p, Port := q } = UFWCmd.deleteAllow f "any" q p
    ∧ ruleString { From := "", Protocol := "", Port := "" }
      = "From: any, Protocol: any, Port: any"
    ∧ addCmd { From := "", Protocol := "", Port := "" } = UFWCmd.allow "" "" "any" ""
    ∧ removeCmd { From := "", Protocol := "", Port := "" }
      = UFWCmd.deleteAllow "" "any" "" "" := by
  refine ⟨?_, ?_, by decide, by decide, by decide⟩
  · rw [addCmd]
    by_cases h : f = "any" <;> simp [h]
  · rw [removeCmd]
    by_cases h : f = "any" <;> simp [h]

end LatitudeAgent
